import Mathlib

/-!
Verification of the smart-shopping recommendation core: the product
relevance scorer, the four recommendation strategy engines, the strategy
selector with its two-tier memory, and the feedback learner.

Python dictionaries carrying product and customer records are embedded as
Lean structures; numeric fields use `ℚ` (exact arithmetic in place of
Python floats); `dict.get(key, default)` on a field that may be absent is
embedded as `Option` + `getD`.
-/

/-- Customer analysis data consumed by the scorer, the selector and the
strategy engines (`customer_data` dict). `price_sensitivity` is the field
`customer_data['insights']['price_sensitivity']`. -/
structure CustomerData where
  customer_id : String
  customer_segment : String
  browsing_history : List String
  purchase_history : List String
  location : String
  season : String
  holiday_shopping : Bool
  avg_order_value : ℚ
  price_sensitivity : String
deriving DecidableEq, Repr

/-- A raw product record as read from the database, before relevance
scoring (`product_agent._filter_products_for_customer` input).
`recommendation_probability` may be absent (`.get` with default 0.5). -/
structure RawProduct where
  product_id : String
  category : String
  subcategory : String
  brand : String
  price : ℚ
  product_rating : ℚ
  sentiment_score : ℚ
  season : String
  holiday : Bool
  geographical_location : String
  recommendation_probability : Option ℚ
deriving DecidableEq, Repr

/-- A scored product candidate as consumed by the strategy engines: the
raw product plus the `relevance_score` attached by the product agent. -/
structure Candidate where
  product_id : String
  category : String
  subcategory : String
  price : ℚ
  product_rating : ℚ
  relevance_score : ℚ
deriving DecidableEq, Repr

/-- Price-sensitivity multiplier (`price_factor` dict lookup with default
1.0 in `_filter_products_for_customer`). -/
def price_factor (s : String) : ℚ :=
  if s = "low" then 3/2
  else if s = "medium" then 1
  else if s = "high" then 7/10
  else 1

/-- Adjustment 1 of `_filter_products_for_customer`: location match. -/
def adjust_location (c : CustomerData) (p : RawProduct) (s : ℚ) : ℚ :=
  if p.geographical_location = c.location then s + 15/100 else s

/-- Adjustment 2: season match. -/
def adjust_season (c : CustomerData) (p : RawProduct) (s : ℚ) : ℚ :=
  if p.season = c.season then s + 1/10 else s

/-- Adjustment 3: holiday match. -/
def adjust_holiday (c : CustomerData) (p : RawProduct) (s : ℚ) : ℚ :=
  if p.holiday = c.holiday_shopping then s + 1/10 else s

/-- Adjustment 4: price sensitivity. -/
def adjust_price (c : CustomerData) (p : RawProduct) (s : ℚ) : ℚ :=
  if p.price ≤ c.avg_order_value * price_factor c.price_sensitivity
  then s + 1/10 else s - 1/10

/-- Adjustment 5: rating. -/
def adjust_rating (p : RawProduct) (s : ℚ) : ℚ :=
  if p.product_rating ≥ 4 then s + 1/10
  else if p.product_rating ≤ 2 then s - 1/10 else s

/-- Adjustment 6: sentiment score. -/
def adjust_sentiment (p : RawProduct) (s : ℚ) : ℚ :=
  if p.sentiment_score ≥ 7/10 then s + 1/20
  else if p.sentiment_score ≤ 3/10 then s - 1/20 else s

/-- The relevance scorer: the per-product body of
`product_agent._filter_products_for_customer` (lines 121–163): the six
sequential additive adjustments applied to the base recommendation
probability (default 0.5 when absent), then the final
`max(0, min(1, relevance_score))` clamp. -/
def score_product (c : CustomerData) (p : RawProduct) : ℚ :=
  max 0 (min 1
    (adjust_sentiment p (adjust_rating p (adjust_price c p (adjust_holiday c p
      (adjust_season c p (adjust_location c p
        (p.recommendation_probability.getD (1/2)))))))))

/-- `product_agent._filter_products_for_customer`: every product is kept
and receives its relevance score (the function filters nothing; it maps). -/
def _filter_products_for_customer (c : CustomerData) (products : List RawProduct) :
    List Candidate :=
  products.map (fun p =>
    { product_id := p.product_id
      category := p.category
      subcategory := p.subcategory
      price := p.price
      product_rating := p.product_rating
      relevance_score := score_product c p })

/-- A recommendation dict produced by the strategy engines.  The
collaborative and popularity engines do not set `subcategory`; the
embedding uses `""` for it there. -/
structure Rec where
  product_id : String
  category : String
  subcategory : String
  price : ℚ
  score : ℚ
  reason : String
deriving DecidableEq, Repr

/-- Python's `sorted(key=key, reverse=True)`: a stable sort putting larger
keys first (ties keep the original order). -/
def sortDescBy {α : Type} (key : α → ℚ) (l : List α) : List α :=
  l.mergeSort (fun a b => decide (key b ≤ key a))

/-- The recommendation dict the collaborative engine builds for one
candidate: score is the relevance score unchanged. -/
def collab_rec (c : CustomerData) (p : Candidate) : Rec :=
  { product_id := p.product_id
    category := p.category
    subcategory := ""
    price := p.price
    score := p.relevance_score
    reason := "Recommended based on preferences of similar "
      ++ c.customer_segment ++ " customers" }

/-- `_collaborative_filtering_strategy` (recommendation.py lines
157–206): sort by relevance score descending, take the top 10, score is
the relevance score unchanged. -/
def _collaborative_filtering_strategy (c : CustomerData) (products : List Candidate) :
    List Rec :=
  if products = [] then []
  else ((sortDescBy Candidate.relevance_score products).take 10).map (collab_rec c)

/-- The content-based score of one candidate: relevance score, +0.1 when
its category is in the browsing history, +0.15 when in the purchase
history. -/
def content_score (c : CustomerData) (p : Candidate) : ℚ :=
  (if p.category ∈ c.browsing_history
   then p.relevance_score + 1/10 else p.relevance_score)
  + (if p.category ∈ c.purchase_history then 3/20 else 0)

/-- The recommendation dict the content-based engine builds for one
candidate. -/
def content_rec (c : CustomerData) (p : Candidate) : Rec :=
  { product_id := p.product_id
    category := p.category
    subcategory := p.subcategory
    price := p.price
    score := content_score c p
    reason := "Recommended based on your interest in " ++ p.category ++ " products" }

/-- `_content_based_strategy` (recommendation.py lines 208–269): score
every candidate, sort by score descending, take the top 10. -/
def _content_based_strategy (c : CustomerData) (products : List Candidate) :
    List Rec :=
  if products = [] then []
  else (sortDescBy Rec.score (products.map (content_rec c))).take 10

/-- The recommendation dict the popularity engine builds for one
candidate: score is the product rating normalized by 5. -/
def pop_rec (p : Candidate) : Rec :=
  { product_id := p.product_id
    category := p.category
    subcategory := ""
    price := p.price
    score := p.product_rating / 5
    reason := "Popular " ++ p.category ++ " product with a rating of "
      ++ toString p.product_rating }

/-- `_popularity_based_strategy` (recommendation.py lines 271–312): sort
by product rating descending, take the top 10, score is rating / 5. -/
def _popularity_based_strategy (c : CustomerData) (products : List Candidate) :
    List Rec :=
  if products = [] then []
  else ((sortDescBy Candidate.product_rating products).take 10).map pop_rec

/-- One iteration of the hybrid merge loops: the Python
`all_recs[product_id]` dict update.  The dict is insertion-ordered with
unique keys, embedded as an association list: an existing entry gets
`score += w * rec_score` (and, in the content loop where `comb` is true,
`reason += " and " + rec_reason`); a new product id is appended with
score `w * rec_score`. -/
def hybrid_upsert (w : ℚ) (comb : Bool) : List Rec → Rec → List Rec
  | [], r => [{ r with score := w * r.score }]
  | a :: acc, r =>
    if a.product_id = r.product_id then
      { a with
        score := a.score + w * r.score,
        reason := if comb then a.reason ++ " and " ++ r.reason else a.reason } :: acc
    else
      a :: hybrid_upsert w comb acc r

/-- The merged dict `all_recs` of `_hybrid_strategy`: collaborative
entries at weight 0.4, then content entries at weight 0.4 (combining
reasons on a repeated product id), then popularity entries at weight
0.2. -/
def hybrid_merged (c : CustomerData) (products : List Candidate) : List Rec :=
  ((_popularity_based_strategy c products).foldl (hybrid_upsert (1/5) false)
    ((_content_based_strategy c products).foldl (hybrid_upsert (2/5) true)
      ((_collaborative_filtering_strategy c products).foldl
        (hybrid_upsert (2/5) false) [])))

/-- `_hybrid_strategy` (recommendation.py lines 314–373): merge the three
sub-engine outputs with weights 0.4 / 0.4 / 0.2, sort the merged values
by score descending, take the top 10. -/
def _hybrid_strategy (c : CustomerData) (products : List Candidate) : List Rec :=
  (sortDescBy Rec.score (hybrid_merged c products)).take 10

/-- Scenario customer of §8: browsing and purchase history both contain
"Books". -/
def cBooks : CustomerData :=
  { customer_id := "C9"
    customer_segment := "Occasional Shopper"
    browsing_history := ["Books"]
    purchase_history := ["Books"]
    location := "NY"
    season := "Winter"
    holiday_shopping := false
    avg_order_value := 40
    price_sensitivity := "medium" }

/-- Scenario candidate of §8: a "Books" product with relevance score
0.5. -/
def p9Books : Candidate :=
  { product_id := "P9"
    category := "Books"
    subcategory := "Fiction"
    price := 12
    product_rating := 4
    relevance_score := 1/2 }

/-- Scenario candidate P1 of §8, rating 4.5. -/
def pRated1 : Candidate :=
  { product_id := "P1"
    category := "Electronics"
    subcategory := ""
    price := 100
    product_rating := 9/2
    relevance_score := 1/2 }

/-- Scenario candidate P2 of §8, rating 3.0. -/
def pRated2 : Candidate :=
  { product_id := "P2"
    category := "Toys"
    subcategory := ""
    price := 20
    product_rating := 3
    relevance_score := 1/2 }

/-- The score a ranked list carries for a product id: the first matching
entry's score, 0 when the id is absent (the sub-engine contribution
convention of the hybrid merge). -/
def scoreOf : List Rec → String → ℚ
  | [], _ => 0
  | a :: l, pid => if a.product_id = pid then a.score else scoreOf l pid

/-- The reason a ranked list carries for a product id, when present. -/
def reasonOf : List Rec → String → Option String
  | [], _ => none
  | a :: l, pid => if a.product_id = pid then some a.reason else reasonOf l pid

/-- The product ids of a ranked list, in order. -/
def recIds : List Rec → List String
  | [] => []
  | a :: l => a.product_id :: recIds l

/-- A candidate whose relevance score is already high: category "Books"
matches both histories of the scenario customer. -/
def pHotBooks : Candidate :=
  { product_id := "P10"
    category := "Books"
    subcategory := "Fiction"
    price := 30
    product_rating := 4
    relevance_score := 9/10 }

/-- The two-tier agent memory of BaseAgent: the in-process dict
`self.memory` (cache) and the append-only `agent_memory` database table
(`store_agent_memory` runs a plain INSERT, so the durable tier is a row
list in insertion order; `get_agent_memory` filters by key and
`recall_memory` takes `results[0]`).  The values stored by the
recommendation agent are strategy-name strings, which the source's JSON
round-trip leaves unchanged, so values are embedded as plain strings. -/
structure AgentMem where
  cache : String → Option String
  durable : List (String × String)

/-- A fresh agent's memory. -/
def emptyMem : AgentMem := ⟨fun _ => none, []⟩

/-- `BaseAgent.store_memory`: write-through to cache and durable row. -/
def store_memory (m : AgentMem) (k v : String) : AgentMem :=
  { cache := fun x => if x = k then some v else m.cache x
    durable := m.durable ++ [(k, v)] }

/-- `DatabaseManager.get_agent_memory`: the durable rows for a key. -/
def get_agent_memory (m : AgentMem) (k : String) : List (String × String) :=
  m.durable.filter (fun row => row.1 = k)

/-- `BaseAgent.recall_memory`: cache first; on a miss the first durable
row, which is copied into the cache. -/
def recall_memory (m : AgentMem) (k : String) : Option String × AgentMem :=
  match m.cache k with
  | some v => (some v, m)
  | none =>
    match (get_agent_memory m k).head? with
    | some row =>
      (some row.2,
        { m with cache := fun x => if x = k then some row.2 else m.cache x })
    | none => (none, m)

/-- The strategy names in the registration order of the
`self.strategies` dict (Python dicts preserve insertion order, and
`list(self.strategies.keys())` is taken in `_learn_from_feedback`). -/
def strategies_list : List String :=
  ["collaborative_filtering", "content_based", "popularity_based", "hybrid"]

/-- The per-customer memory key `strategy_preference_{customer_id}`. -/
def strategyKey (cid : String) : String := "strategy_preference_" ++ cid

/-- The segment-based default of `_select_recommendation_strategy`
(lines 88–99), evaluated only when no stored preference is used. -/
def fresh_strategy (c : CustomerData) : String :=
  if c.customer_segment = "New Visitor" then "popularity_based"
  else if c.customer_segment = "Frequent Buyer" then "collaborative_filtering"
  else if c.browsing_history.length > c.purchase_history.length then "content_based"
  else "hybrid"

/-- `_select_recommendation_strategy` (recommendation.py lines 66–104):
a truthy stored preference is returned as is; otherwise the segment
default is computed and stored.  The Python truthiness test
`if stored_strategy:` makes an empty-string value fall through. -/
def _select_recommendation_strategy (m : AgentMem) (c : CustomerData) :
    String × AgentMem :=
  let k := strategyKey c.customer_id
  match recall_memory m k with
  | (some s, m1) =>
    if s = "" then (fresh_strategy c, store_memory m1 k (fresh_strategy c))
    else (s, m1)
  | (none, m1) => (fresh_strategy c, store_memory m1 k (fresh_strategy c))

/-- The strategy `_learn_from_feedback` rotates to:
`strategies[(strategies.index(current) + 1) % len(strategies)]`, index
defaulting to 0 when the stored value is not a known strategy. -/
def next_strategy (current : String) : String :=
  let idx := if current ∈ strategies_list then strategies_list.indexOf current else 0
  strategies_list.getD ((idx + 1) % strategies_list.length) ""

/-- The result dict of `_learn_from_feedback`. -/
structure LearnResult where
  status : String
  action_taken : String
  previous_strategy : Option String
  new_strategy : Option String
  current_strategy : Option String
deriving DecidableEq, Repr

/-- Python truthiness of a possibly-absent string value. -/
def truthy_str : Option String → Bool
  | none => false
  | some s => decide (s ≠ "")

/-- Python truthiness of a possibly-absent integer value. -/
def truthy_int : Option Int → Bool
  | none => false
  | some i => decide (i ≠ 0)

/-- `_learn_from_feedback` (recommendation.py lines 435–476): on
negative feedback with a truthy stored preference, rotate the stored
preference one step along the fixed cycle; otherwise leave it alone. -/
def _learn_from_feedback (m : AgentMem) (customer_id product_id : String)
    (feedback : Int) : LearnResult × AgentMem :=
  let k := strategyKey customer_id
  let res := recall_memory m k
  if feedback < 0 ∧ truthy_str res.1 then
    let current := res.1.getD ""
    let nxt := next_strategy current
    ({ status := "learned_from_feedback"
       action_taken := "adjusted_strategy"
       previous_strategy := some current
       new_strategy := some nxt
       current_strategy := none },
     store_memory res.2 k nxt)
  else
    ({ status := "feedback_recorded"
       action_taken := "maintained_strategy"
       previous_strategy := none
       new_strategy := none
       current_strategy := res.1 }, res.2)

/-- A result of a feedback entry point: the error dict, the learner's
result dict, or the coordinator's plain status dict. -/
inductive ProcessResult where
  | err (msg : String)
  | learned (r : LearnResult)
  | ok (status : String)
deriving DecidableEq, Repr

/-- `RecommendationAgent.process` for action `learn_from_feedback`
(recommendation.py lines 53–61): the `all([...])` truthiness guard,
then the learner. -/
def process_learn_from_feedback (m : AgentMem)
    (customer_id product_id : Option String) (feedback : Option Int) :
    ProcessResult × AgentMem :=
  if truthy_str customer_id ∧ truthy_str product_id ∧ truthy_int feedback then
    let r := _learn_from_feedback m (customer_id.getD "") (product_id.getD "")
      (feedback.getD 0)
    (ProcessResult.learned r.1, r.2)
  else (ProcessResult.err "Missing required feedback data", m)

/-- A persisted recommendation row (feedback field as updated by the
coordinator's UPDATE query). -/
structure RecRow where
  customer_id : String
  product_id : String
  feedback : Int
deriving DecidableEq, Repr

/-- The state touched by `CoordinatorAgent.handle_feedback`: the
recommendation agent's memory and the recommendations table. -/
structure CoordState where
  rec_mem : AgentMem
  recommendations : List RecRow

/-- `CoordinatorAgent.handle_feedback` (coordinator.py lines 81–114):
the same `all([...])` guard, then the feedback UPDATE on matching rows
and the delegation to the recommendation agent. -/
def handle_feedback (st : CoordState)
    (customer_id product_id : Option String) (feedback : Option Int) :
    ProcessResult × CoordState :=
  if truthy_str customer_id ∧ truthy_str product_id ∧ truthy_int feedback then
    let rows := st.recommendations.map (fun row =>
      if row.customer_id = customer_id.getD "" ∧ row.product_id = product_id.getD ""
      then { row with feedback := feedback.getD 0 } else row)
    let r := process_learn_from_feedback st.rec_mem customer_id product_id feedback
    (ProcessResult.ok "feedback_recorded",
      { rec_mem := r.2, recommendations := rows })
  else (ProcessResult.err "Missing required feedback data", st)

/-- A memory with a stored "hybrid" preference for customer C42. -/
def memHybrid : AgentMem := store_memory emptyMem (strategyKey "C42") "hybrid"

/-- A New Visitor customer with no history. -/
def cNew : CustomerData :=
  { customer_id := "C77"
    customer_segment := "New Visitor"
    browsing_history := []
    purchase_history := []
    location := "NY"
    season := "Winter"
    holiday_shopping := false
    avg_order_value := 0
    price_sensitivity := "medium" }

lemma clamp01_nonneg (x : ℚ) : 0 ≤ max 0 (min 1 x) := le_max_left 0 _

lemma clamp01_le_one (x : ℚ) : max 0 (min 1 x) ≤ 1 :=
  max_le (by norm_num) (min_le_left 1 x)

lemma adjust_location_eq (c : CustomerData) (p : RawProduct) (s : ℚ) :
    adjust_location c p s
      = s + (if p.geographical_location = c.location then 15/100 else 0) := by
  unfold adjust_location; split_ifs <;> ring

lemma adjust_season_eq (c : CustomerData) (p : RawProduct) (s : ℚ) :
    adjust_season c p s = s + (if p.season = c.season then 1/10 else 0) := by
  unfold adjust_season; split_ifs <;> ring

lemma adjust_holiday_eq (c : CustomerData) (p : RawProduct) (s : ℚ) :
    adjust_holiday c p s
      = s + (if p.holiday = c.holiday_shopping then 1/10 else 0) := by
  unfold adjust_holiday; split_ifs <;> ring

lemma adjust_price_eq (c : CustomerData) (p : RawProduct) (s : ℚ) :
    adjust_price c p s
      = s + (if p.price ≤ c.avg_order_value * price_factor c.price_sensitivity
             then 1/10 else -(1/10)) := by
  unfold adjust_price; split_ifs <;> ring

lemma adjust_rating_eq (p : RawProduct) (s : ℚ) :
    adjust_rating p s
      = s + (if p.product_rating ≥ 4 then 1/10
             else if p.product_rating ≤ 2 then -(1/10) else 0) := by
  unfold adjust_rating; split_ifs <;> ring

lemma adjust_sentiment_eq (p : RawProduct) (s : ℚ) :
    adjust_sentiment p s
      = s + (if p.sentiment_score ≥ 7/10 then 1/20
             else if p.sentiment_score ≤ 3/10 then -(1/20) else 0) := by
  unfold adjust_sentiment; split_ifs <;> ring

/-- C2: the relevance score equals the base recommendation probability
(0.5 when absent) plus the independent additive adjustments of the spec —
+0.15 location match, +0.10 season match, +0.10 holiday-flag match,
±0.10 price fit against `avg_order_value * price_factor`, ±0.10 rating,
±0.05 sentiment — clamped once at the end to [0,1]; consequently the
output always lies in [0,1].  The embedding is a pure function, so the
computation has no side effects on its inputs. -/
theorem relevance_scorer_spec (c : CustomerData) (p : RawProduct) :
    score_product c p =
      max 0 (min 1 (
        p.recommendation_probability.getD (1/2)
        + (if p.geographical_location = c.location then 15/100 else 0)
        + (if p.season = c.season then 1/10 else 0)
        + (if p.holiday = c.holiday_shopping then 1/10 else 0)
        + (if p.price ≤ c.avg_order_value * price_factor c.price_sensitivity
           then 1/10 else -(1/10))
        + (if p.product_rating ≥ 4 then 1/10
           else if p.product_rating ≤ 2 then -(1/10) else 0)
        + (if p.sentiment_score ≥ 7/10 then 1/20
           else if p.sentiment_score ≤ 3/10 then -(1/20) else 0)))
    ∧ 0 ≤ score_product c p ∧ score_product c p ≤ 1
    ∧ (_filter_products_for_customer c [p]).map Candidate.relevance_score
        = [score_product c p] := by
  refine ⟨?_, ?_, ?_, rfl⟩
  · unfold score_product
    rw [adjust_sentiment_eq, adjust_rating_eq, adjust_price_eq, adjust_holiday_eq,
      adjust_season_eq, adjust_location_eq]
  · unfold score_product
    exact clamp01_nonneg _
  · unfold score_product
    exact clamp01_le_one _

lemma sortDescBy_le_trans {α : Type} (key : α → ℚ) : ∀ (a b c : α),
    (fun a b => decide (key b ≤ key a)) a b →
    (fun a b => decide (key b ≤ key a)) b c →
    (fun a b => decide (key b ≤ key a)) a c := by
  intro a b c hab hbc
  simp only [decide_eq_true_eq] at *
  exact le_trans hbc hab

lemma sortDescBy_le_total {α : Type} (key : α → ℚ) : ∀ (a b : α),
    ((fun a b => decide (key b ≤ key a)) a b
      || (fun a b => decide (key b ≤ key a)) b a) = true := by
  intro a b
  simp only [Bool.or_eq_true, decide_eq_true_eq]
  exact le_total (key b) (key a)

lemma sortDescBy_perm {α : Type} (key : α → ℚ) (l : List α) :
    List.Perm (sortDescBy key l) l :=
  List.mergeSort_perm l _

lemma sortDescBy_sorted {α : Type} (key : α → ℚ) (l : List α) :
    (sortDescBy key l).Pairwise (fun a b => key b ≤ key a) := by
  have h := List.sorted_mergeSort
    (sortDescBy_le_trans key) (sortDescBy_le_total key) l
  exact h.imp (by intro a b hab; simpa using hab)

lemma sortDescBy_nil {α : Type} (key : α → ℚ) : sortDescBy key [] = [] := by
  simp [sortDescBy]

/-- The early return on an empty candidate list coincides with the sort
branch, so the guard can be dropped in proofs. -/
lemma collab_eq (c : CustomerData) (prods : List Candidate) :
    _collaborative_filtering_strategy c prods
      = ((sortDescBy Candidate.relevance_score prods).take 10).map (collab_rec c) := by
  unfold _collaborative_filtering_strategy
  split_ifs with h
  · subst h; simp [sortDescBy_nil]
  · rfl

lemma content_eq (c : CustomerData) (prods : List Candidate) :
    _content_based_strategy c prods
      = (sortDescBy Rec.score (prods.map (content_rec c))).take 10 := by
  unfold _content_based_strategy
  split_ifs with h
  · subst h; simp [sortDescBy_nil]
  · rfl

lemma pop_eq (c : CustomerData) (prods : List Candidate) :
    _popularity_based_strategy c prods
      = ((sortDescBy Candidate.product_rating prods).take 10).map pop_rec := by
  unfold _popularity_based_strategy
  split_ifs with h
  · subst h; simp [sortDescBy_nil]
  · rfl

lemma mem_of_mem_take_sortDescBy {α : Type} {key : α → ℚ} {n : ℕ} {l : List α}
    {x : α} (h : x ∈ (sortDescBy key l).take n) : x ∈ l :=
  (sortDescBy_perm key l).mem_iff.mp (List.mem_of_mem_take h)

lemma pairwise_take_sortDescBy {α : Type} (key : α → ℚ) (n : ℕ) (l : List α) :
    ((sortDescBy key l).take n).Pairwise (fun a b => key b ≤ key a) :=
  List.Pairwise.sublist (List.take_sublist _ _) (sortDescBy_sorted key l)

lemma take_sortDescBy_of_length_le {α : Type} (key : α → ℚ) {n : ℕ} {l : List α}
    (h : l.length ≤ n) : (sortDescBy key l).take n = sortDescBy key l :=
  List.take_of_length_le (by rw [(sortDescBy_perm key l).length_eq]; exact h)

unseal List.merge List.mergeSort in
/-- C9: every strategy engine returns the empty recommendation list on an
empty candidate list; in this embedding each engine is a total function,
so no error is signalled. -/
theorem empty_candidates_empty_output (c : CustomerData) :
    _collaborative_filtering_strategy c [] = []
    ∧ _content_based_strategy c [] = []
    ∧ _popularity_based_strategy c [] = []
    ∧ _hybrid_strategy c [] = [] :=
  ⟨rfl, rfl, rfl, rfl⟩

lemma content_score_eq (c : CustomerData) (p : Candidate) :
    content_score c p
      = p.relevance_score
        + (if p.category ∈ c.browsing_history then 1/10 else 0)
        + (if p.category ∈ c.purchase_history then 3/20 else 0) := by
  unfold content_score
  split_ifs <;> ring

unseal List.merge List.mergeSort in
lemma content_books_eval :
    (_content_based_strategy cBooks [p9Books]).map Rec.score = [3/4] := by
  rw [content_eq]
  norm_num [cBooks, p9Books, content_rec, content_score, sortDescBy]

/-- C7: the content-based engine scores each candidate as its relevance
score, +0.10 when its category appears in the browsing history and +0.15
when it appears in the purchase history (both cumulable), and returns the
scored candidates in descending score order (all of them whenever at most
10 candidates are given); in the §8 scenario a "Books" candidate with
relevance score 0.5 and both histories containing "Books" scores
0.75. -/
theorem content_based_spec (c : CustomerData) (prods : List Candidate) :
    (∀ r ∈ _content_based_strategy c prods, ∃ p ∈ prods, r = content_rec c p
      ∧ r.score = p.relevance_score
          + (if p.category ∈ c.browsing_history then 1/10 else 0)
          + (if p.category ∈ c.purchase_history then 3/20 else 0))
    ∧ (_content_based_strategy c prods).Pairwise (fun a b => b.score ≤ a.score)
    ∧ (prods.length ≤ 10 →
        List.Perm (_content_based_strategy c prods) (prods.map (content_rec c)))
    ∧ (_content_based_strategy cBooks [p9Books]).map Rec.score = [3/4] := by
  refine ⟨?_, ?_, ?_, content_books_eval⟩
  · intro r hr
    rw [content_eq] at hr
    obtain ⟨p, hp, rfl⟩ := List.mem_map.mp (mem_of_mem_take_sortDescBy hr)
    exact ⟨p, hp, rfl, content_score_eq c p⟩
  · rw [content_eq]
    exact pairwise_take_sortDescBy Rec.score 10 _
  · intro hlen
    rw [content_eq, take_sortDescBy_of_length_le Rec.score (by simpa using hlen)]
    exact sortDescBy_perm _ _

/-- Witness for C7 at the §8 scenario input: one candidate, so the
engine returns exactly the scored candidate list. -/
theorem content_based_spec_witness :
    ([p9Books] : List Candidate).length ≤ 10
    ∧ List.Perm (_content_based_strategy cBooks [p9Books])
        ([p9Books].map (content_rec cBooks)) :=
  ⟨by norm_num, (content_based_spec cBooks [p9Books]).2.2.1 (by norm_num)⟩

/-- Stability of the embedded Python sort: elements whose key is pinned
by a predicate keep exactly their original relative order (and
multiplicity) through the sort. -/
lemma filter_sortDescBy_eq {α : Type} (key : α → ℚ) (p : α → Bool)
    (hp : ∀ x y, p x = true → p y = true → key x = key y) (l : List α) :
    (sortDescBy key l).filter p = l.filter p := by
  have hperm : List.Perm ((sortDescBy key l).filter p) (l.filter p) :=
    (sortDescBy_perm key l).filter p
  have hpw : (l.filter p).Pairwise (fun a b => decide (key b ≤ key a) = true) := by
    refine List.pairwise_of_forall_mem_list ?_
    intro a ha b hb
    have := hp a b (List.of_mem_filter ha) (List.of_mem_filter hb)
    simp [this]
  have hsub : List.Sublist (l.filter p) (sortDescBy key l) :=
    List.sublist_mergeSort (sortDescBy_le_trans key) (sortDescBy_le_total key)
      hpw (List.filter_sublist l)
  have hsub2 : List.Sublist (l.filter p) ((sortDescBy key l).filter p) := by
    have h := hsub.filter p
    rwa [List.filter_eq_self.mpr (fun a ha => List.mem_filter.mp ha |>.2)] at h
  exact (hsub2.eq_of_length hperm.length_eq.symm).symm

unseal List.merge List.mergeSort in
/-- A two-element list sorts to one of its two arrangements depending on
one comparison. -/
lemma mergeSort_pair {α : Type} (le : α → α → Bool) (x y : α) :
    List.mergeSort [x, y] le = if le x y then [x, y] else [y, x] := by
  cases h : le x y <;> simp [List.mergeSort, List.merge, List.splitInTwo, h]

lemma sortDescBy_pair {α : Type} (key : α → ℚ) (x y : α) :
    sortDescBy key [x, y]
      = if key y ≤ key x then [x, y] else [y, x] := by
  rw [sortDescBy, mergeSort_pair]
  by_cases h : key y ≤ key x <;> simp [h]

lemma pop_rated_eval :
    (_popularity_based_strategy cBooks [pRated1, pRated2]).map Rec.score = [9/10, 3/5]
    ∧ (_popularity_based_strategy cBooks [pRated1, pRated2]).map Rec.product_id
        = ["P1", "P2"] := by
  rw [pop_eq, sortDescBy_pair]
  norm_num [pRated1, pRated2, pop_rec]

/-- C8: the popularity engine returns at most 10 recommendations ordered
by product rating descending, ties keeping the original candidate order
(the sort is stable), each scored as rating / 5; with at most 10
candidates every candidate appears; candidates rated 4.5 and 3.0 yield
scores 0.9 and 0.6 in that order. -/
theorem popularity_based_spec (c : CustomerData) (prods : List Candidate) :
    (_popularity_based_strategy c prods).length ≤ 10
    ∧ (_popularity_based_strategy c prods).Pairwise (fun a b => b.score ≤ a.score)
    ∧ (∀ r ∈ _popularity_based_strategy c prods, ∃ p ∈ prods,
        r = pop_rec p ∧ r.score = p.product_rating / 5)
    ∧ (∀ q : ℚ, List.IsPrefix
        (((_popularity_based_strategy c prods).filter
            (fun r => decide (r.score = q))).map Rec.product_id)
        ((prods.filter
            (fun p => decide (p.product_rating / 5 = q))).map Candidate.product_id))
    ∧ (prods.length ≤ 10 →
        List.Perm (_popularity_based_strategy c prods) (prods.map pop_rec))
    ∧ (_popularity_based_strategy cBooks [pRated1, pRated2]).map Rec.score
        = [9/10, 3/5]
    ∧ (_popularity_based_strategy cBooks [pRated1, pRated2]).map Rec.product_id
        = ["P1", "P2"] := by
  refine ⟨?_, ?_, ?_, ?_, ?_, pop_rated_eval.1, pop_rated_eval.2⟩
  · rw [pop_eq, List.length_map]
    simpa using List.length_take_le 10 _
  · rw [pop_eq]
    refine List.pairwise_map.mpr ?_
    refine (pairwise_take_sortDescBy Candidate.product_rating 10 prods).imp ?_
    intro a b hab
    show (pop_rec b).score ≤ (pop_rec a).score
    simp only [pop_rec]
    exact div_le_div_of_nonneg_right hab (by norm_num) |>.trans_eq rfl
  · intro r hr
    rw [pop_eq] at hr
    obtain ⟨p, hp, rfl⟩ := List.mem_map.mp hr
    exact ⟨p, mem_of_mem_take_sortDescBy hp, rfl, rfl⟩
  · intro q
    rw [pop_eq, List.filter_map, List.map_map]
    have hcomp :
        ((fun r => decide (r.score = q)) ∘ pop_rec)
          = fun p : Candidate => decide (p.product_rating / 5 = q) := by
      funext p
      simp [pop_rec, Function.comp]
    rw [hcomp]
    have hpid : (Rec.product_id ∘ pop_rec) = Candidate.product_id := by
      funext p
      simp [pop_rec, Function.comp]
    rw [hpid]
    have h1 : List.IsPrefix
        (((sortDescBy Candidate.product_rating prods).take 10).filter
          (fun p => decide (p.product_rating / 5 = q)))
        ((sortDescBy Candidate.product_rating prods).filter
          (fun p => decide (p.product_rating / 5 = q))) :=
      List.IsPrefix.filter _ ⟨_, List.take_append_drop 10 _⟩
    rw [filter_sortDescBy_eq Candidate.product_rating _ ?hk] at h1
    case hk =>
      intro x y hx hy
      simp only [decide_eq_true_eq] at hx hy
      have : x.product_rating / 5 = y.product_rating / 5 := hx.trans hy.symm
      field_simp at this
      exact this
    exact h1.map Candidate.product_id
  · intro hlen
    rw [pop_eq, take_sortDescBy_of_length_le Candidate.product_rating hlen]
    exact (sortDescBy_perm Candidate.product_rating prods).map pop_rec

lemma scoreOf_upsert_self (w : ℚ) (comb : Bool) (acc : List Rec) (r : Rec) :
    scoreOf (hybrid_upsert w comb acc r) r.product_id
      = scoreOf acc r.product_id + w * r.score := by
  induction acc with
  | nil => simp [hybrid_upsert, scoreOf]
  | cons a acc ih =>
    by_cases h : a.product_id = r.product_id
    · simp only [hybrid_upsert, if_pos h]
      simp [scoreOf, h]
    · simp only [hybrid_upsert, if_neg h]
      simp [scoreOf, h, ih]

lemma scoreOf_upsert_other (w : ℚ) (comb : Bool) (acc : List Rec) (r : Rec)
    {pid : String} (hpid : pid ≠ r.product_id) :
    scoreOf (hybrid_upsert w comb acc r) pid = scoreOf acc pid := by
  have h0 : ¬ r.product_id = pid := fun hc => hpid hc.symm
  induction acc with
  | nil => simp [hybrid_upsert, scoreOf, h0]
  | cons a acc ih =>
    by_cases h : a.product_id = r.product_id
    · have ha : ¬ a.product_id = pid := by rw [h]; exact h0
      simp only [hybrid_upsert, if_pos h]
      simp [scoreOf, ha, h, h0]
    · simp only [hybrid_upsert, if_neg h]
      by_cases h2 : a.product_id = pid
      · simp [scoreOf, h2]
      · simp [scoreOf, h2, ih]

lemma reasonOf_upsert_other (w : ℚ) (comb : Bool) (acc : List Rec) (r : Rec)
    {pid : String} (hpid : pid ≠ r.product_id) :
    reasonOf (hybrid_upsert w comb acc r) pid = reasonOf acc pid := by
  have h0 : ¬ r.product_id = pid := fun hc => hpid hc.symm
  induction acc with
  | nil => simp [hybrid_upsert, reasonOf, h0]
  | cons a acc ih =>
    by_cases h : a.product_id = r.product_id
    · have ha : ¬ a.product_id = pid := by rw [h]; exact h0
      simp only [hybrid_upsert, if_pos h]
      simp [reasonOf, ha, h, h0]
    · simp only [hybrid_upsert, if_neg h]
      by_cases h2 : a.product_id = pid
      · simp [reasonOf, h2]
      · simp [reasonOf, h2, ih]

lemma reasonOf_upsert_self_false (w : ℚ) (acc : List Rec) (r : Rec) :
    reasonOf (hybrid_upsert w false acc r) r.product_id
      = some ((reasonOf acc r.product_id).getD r.reason) := by
  induction acc with
  | nil => simp [hybrid_upsert, reasonOf]
  | cons a acc ih =>
    by_cases h : a.product_id = r.product_id
    · simp only [hybrid_upsert, if_pos h]
      simp [reasonOf, h]
    · simp only [hybrid_upsert, if_neg h]
      simp [reasonOf, h, ih]

lemma reasonOf_upsert_self_true (w : ℚ) (acc : List Rec) (r : Rec) :
    reasonOf (hybrid_upsert w true acc r) r.product_id
      = some (match reasonOf acc r.product_id with
              | some s => s ++ " and " ++ r.reason
              | none => r.reason) := by
  induction acc with
  | nil => simp [hybrid_upsert, reasonOf]
  | cons a acc ih =>
    by_cases h : a.product_id = r.product_id
    · simp only [hybrid_upsert, if_pos h]
      simp [reasonOf, h]
    · simp only [hybrid_upsert, if_neg h]
      simp [reasonOf, h, ih]

lemma recIds_upsert (w : ℚ) (comb : Bool) (acc : List Rec) (r : Rec) :
    recIds (hybrid_upsert w comb acc r)
      = if r.product_id ∈ recIds acc then recIds acc
        else recIds acc ++ [r.product_id] := by
  induction acc with
  | nil => simp [hybrid_upsert, recIds]
  | cons a acc ih =>
    by_cases h : a.product_id = r.product_id
    · simp only [hybrid_upsert, if_pos h]
      rw [if_pos (show r.product_id ∈ recIds (a :: acc) by
        simp only [recIds, List.mem_cons]
        exact Or.inl h.symm)]
      rfl
    · have h' : ¬ r.product_id = a.product_id := fun hc => h hc.symm
      simp only [hybrid_upsert, if_neg h]
      show a.product_id :: recIds (hybrid_upsert w comb acc r) = _
      rw [ih]
      by_cases hmem : r.product_id ∈ recIds acc
      · rw [if_pos hmem, if_pos (by simp [recIds, hmem])]
        rfl
      · rw [if_neg hmem, if_neg (by simp [recIds, hmem, h'])]
        rfl

lemma nodup_recIds_upsert (w : ℚ) (comb : Bool) {acc : List Rec} (r : Rec)
    (h : (recIds acc).Nodup) : (recIds (hybrid_upsert w comb acc r)).Nodup := by
  rw [recIds_upsert]
  split_ifs with hmem
  · exact h
  · rw [List.nodup_append]
    exact ⟨h, List.nodup_singleton _,
      fun x hx hxc => hmem (List.mem_singleton.mp hxc ▸ hx)⟩

lemma mem_recIds_of_mem {l : List Rec} {r : Rec} (h : r ∈ l) :
    r.product_id ∈ recIds l := by
  induction l with
  | nil => cases h
  | cons a l ih =>
    rcases List.mem_cons.mp h with rfl | h'
    · simp [recIds]
    · simp [recIds, ih h']

lemma scoreOf_eq_of_mem {l : List Rec} (hnd : (recIds l).Nodup) {r : Rec}
    (hr : r ∈ l) : scoreOf l r.product_id = r.score := by
  induction l with
  | nil => cases hr
  | cons a l ih =>
    simp only [recIds, List.nodup_cons] at hnd
    rcases List.mem_cons.mp hr with rfl | hr'
    · simp [scoreOf]
    · have ha : ¬ a.product_id = r.product_id := fun hc =>
        hnd.1 (hc ▸ mem_recIds_of_mem hr')
      simp [scoreOf, ha, ih hnd.2 hr']

lemma reasonOf_eq_of_mem {l : List Rec} (hnd : (recIds l).Nodup) {r : Rec}
    (hr : r ∈ l) : reasonOf l r.product_id = some r.reason := by
  induction l with
  | nil => cases hr
  | cons a l ih =>
    simp only [recIds, List.nodup_cons] at hnd
    rcases List.mem_cons.mp hr with rfl | hr'
    · simp [reasonOf]
    · have ha : ¬ a.product_id = r.product_id := fun hc =>
        hnd.1 (hc ▸ mem_recIds_of_mem hr')
      simp [reasonOf, ha, ih hnd.2 hr']

lemma scoreOf_foldl_not_mem {w : ℚ} {comb : Bool} {recs acc : List Rec}
    {pid : String} (h : pid ∉ recIds recs) :
    scoreOf (recs.foldl (hybrid_upsert w comb) acc) pid = scoreOf acc pid := by
  induction recs generalizing acc with
  | nil => rfl
  | cons r rs ih =>
    simp only [recIds, List.mem_cons, not_or] at h
    rw [List.foldl_cons, ih (by simpa using h.2), scoreOf_upsert_other _ _ _ _ h.1]

lemma reasonOf_foldl_not_mem {w : ℚ} {comb : Bool} {recs acc : List Rec}
    {pid : String} (h : pid ∉ recIds recs) :
    reasonOf (recs.foldl (hybrid_upsert w comb) acc) pid = reasonOf acc pid := by
  induction recs generalizing acc with
  | nil => rfl
  | cons r rs ih =>
    simp only [recIds, List.mem_cons, not_or] at h
    rw [List.foldl_cons, ih (by simpa using h.2), reasonOf_upsert_other _ _ _ _ h.1]

lemma scoreOf_foldl (w : ℚ) (comb : Bool) {recs : List Rec}
    (hnd : (recIds recs).Nodup) (acc : List Rec) (pid : String) :
    scoreOf (recs.foldl (hybrid_upsert w comb) acc) pid
      = scoreOf acc pid + w * scoreOf recs pid := by
  induction recs generalizing acc with
  | nil => simp [scoreOf]
  | cons r rs ih =>
    simp only [recIds, List.nodup_cons] at hnd
    rw [List.foldl_cons]
    by_cases h : pid = r.product_id
    · subst h
      rw [scoreOf_foldl_not_mem hnd.1, scoreOf_upsert_self]
      simp [scoreOf]
    · rw [ih hnd.2, scoreOf_upsert_other _ _ _ _ h]
      have h' : ¬ r.product_id = pid := fun hc => h hc.symm
      simp [scoreOf, h']

lemma reasonOf_foldl_false (w : ℚ) (recs : List Rec) (acc : List Rec)
    (pid : String) :
    reasonOf (recs.foldl (hybrid_upsert w false) acc) pid
      = match reasonOf acc pid with
        | some s => some s
        | none => reasonOf recs pid := by
  induction recs generalizing acc with
  | nil => cases h0 : reasonOf acc pid <;> simp [reasonOf, h0]
  | cons r rs ih =>
    rw [List.foldl_cons, ih]
    by_cases h : pid = r.product_id
    · subst h
      rw [reasonOf_upsert_self_false]
      cases hr : reasonOf acc r.product_id <;> simp [reasonOf, hr]
    · rw [reasonOf_upsert_other _ _ _ _ h]
      have h' : ¬ r.product_id = pid := fun hc => h hc.symm
      cases hr : reasonOf acc pid <;> simp [reasonOf, hr, h']

lemma reasonOf_foldl_true (w : ℚ) {recs : List Rec}
    (hnd : (recIds recs).Nodup) (acc : List Rec) (pid : String) :
    reasonOf (recs.foldl (hybrid_upsert w true) acc) pid
      = match reasonOf acc pid, reasonOf recs pid with
        | some s, some t => some (s ++ " and " ++ t)
        | some s, none => some s
        | none, t => t := by
  induction recs generalizing acc with
  | nil => cases h0 : reasonOf acc pid <;> simp [reasonOf, h0]
  | cons r rs ih =>
    simp only [recIds, List.nodup_cons] at hnd
    rw [List.foldl_cons]
    by_cases h : pid = r.product_id
    · subst h
      rw [reasonOf_foldl_not_mem hnd.1, reasonOf_upsert_self_true]
      cases hr : reasonOf acc r.product_id <;> simp [reasonOf, hr]
    · rw [ih hnd.2, reasonOf_upsert_other _ _ _ _ h]
      have h' : ¬ r.product_id = pid := fun hc => h hc.symm
      cases hr : reasonOf acc pid <;> simp [reasonOf, hr, h']

lemma nodup_recIds_foldl (w : ℚ) (comb : Bool) (recs : List Rec)
    {acc : List Rec} (h : (recIds acc).Nodup) :
    (recIds (recs.foldl (hybrid_upsert w comb) acc)).Nodup := by
  induction recs generalizing acc with
  | nil => exact h
  | cons r rs ih => exact ih (nodup_recIds_upsert _ _ _ h)

lemma mem_recIds_foldl {w : ℚ} {comb : Bool} {recs acc : List Rec}
    {pid : String}
    (h : pid ∈ recIds (recs.foldl (hybrid_upsert w comb) acc)) :
    pid ∈ recIds acc ∨ pid ∈ recIds recs := by
  induction recs generalizing acc with
  | nil => exact Or.inl h
  | cons r rs ih =>
    rcases ih h with h1 | h1
    · rw [recIds_upsert] at h1
      split_ifs at h1 with hm
      · exact Or.inl h1
      · rcases List.mem_append.mp h1 with h2 | h2
        · exact Or.inl h2
        · simp [recIds, List.mem_singleton.mp h2]
    · simp [recIds, h1]

lemma recIds_eq_map (l : List Rec) : recIds l = l.map Rec.product_id := by
  induction l <;> simp [recIds, *]

lemma nodup_map_take_sortDescBy {α β : Type} (key : α → ℚ) (f : α → β)
    {l : List α} (h : (l.map f).Nodup) (n : ℕ) :
    (((sortDescBy key l).take n).map f).Nodup := by
  have hperm : List.Perm ((sortDescBy key l).map f) (l.map f) :=
    (sortDescBy_perm key l).map f
  have hnd2 : ((sortDescBy key l).map f).Nodup := hperm.nodup_iff.mpr h
  exact hnd2.sublist ((List.take_sublist n _).map f)

lemma nodup_recIds_collab (c : CustomerData) {prods : List Candidate}
    (hnd : (prods.map Candidate.product_id).Nodup) :
    (recIds (_collaborative_filtering_strategy c prods)).Nodup := by
  rw [collab_eq, recIds_eq_map, List.map_map]
  exact nodup_map_take_sortDescBy Candidate.relevance_score _ hnd 10

lemma nodup_recIds_pop (c : CustomerData) {prods : List Candidate}
    (hnd : (prods.map Candidate.product_id).Nodup) :
    (recIds (_popularity_based_strategy c prods)).Nodup := by
  rw [pop_eq, recIds_eq_map, List.map_map]
  exact nodup_map_take_sortDescBy Candidate.product_rating _ hnd 10

lemma nodup_recIds_content (c : CustomerData) {prods : List Candidate}
    (hnd : (prods.map Candidate.product_id).Nodup) :
    (recIds (_content_based_strategy c prods)).Nodup := by
  rw [content_eq, recIds_eq_map]
  refine nodup_map_take_sortDescBy Rec.score Rec.product_id ?_ 10
  rw [List.map_map]
  exact hnd

/-- The merged hybrid dict never holds two entries for one product id,
whatever the candidate list (dict keys are unique by construction). -/
lemma nodup_recIds_hybrid_merged (c : CustomerData) (prods : List Candidate) :
    (recIds (hybrid_merged c prods)).Nodup := by
  unfold hybrid_merged
  refine nodup_recIds_foldl _ _ _ (nodup_recIds_foldl _ _ _
    (nodup_recIds_foldl _ _ _ ?_))
  simp [recIds]

/-- The hybrid merge computes, for every product id, 0.4 times its
collaborative score plus 0.4 times its content score plus 0.2 times its
popularity score, an absent id contributing 0. -/
lemma hybrid_merged_scoreOf (c : CustomerData) {prods : List Candidate}
    (hnd : (prods.map Candidate.product_id).Nodup) (pid : String) :
    scoreOf (hybrid_merged c prods) pid
      = 2/5 * scoreOf (_collaborative_filtering_strategy c prods) pid
        + 2/5 * scoreOf (_content_based_strategy c prods) pid
        + 1/5 * scoreOf (_popularity_based_strategy c prods) pid := by
  unfold hybrid_merged
  rw [scoreOf_foldl _ _ (nodup_recIds_pop c hnd),
    scoreOf_foldl _ _ (nodup_recIds_content c hnd),
    scoreOf_foldl _ _ (nodup_recIds_collab c hnd)]
  simp only [scoreOf]
  ring

/-- A product id present in both the collaborative and the content lists
carries, in the merged dict, the two reasons joined by " and ". -/
lemma hybrid_merged_reasonOf (c : CustomerData) {prods : List Candidate}
    (hnd : (prods.map Candidate.product_id).Nodup) {pid : String}
    {cr ctr : String}
    (hcr : reasonOf (_collaborative_filtering_strategy c prods) pid = some cr)
    (hct : reasonOf (_content_based_strategy c prods) pid = some ctr) :
    reasonOf (hybrid_merged c prods) pid = some (cr ++ " and " ++ ctr) := by
  unfold hybrid_merged
  rw [reasonOf_foldl_false,
    reasonOf_foldl_true _ (nodup_recIds_content c hnd),
    reasonOf_foldl_false, hct, hcr]
  simp [reasonOf]

/-- Taking a prefix of the descending sort keeps only top elements:
anything left behind scores no higher than anything kept. -/
lemma take_sortDescBy_dominates {α : Type} (key : α → ℚ) (n : ℕ) (l : List α)
    {x y : α} (hx : x ∈ l) (hnx : x ∉ (sortDescBy key l).take n)
    (hy : y ∈ (sortDescBy key l).take n) : key x ≤ key y := by
  have hs := sortDescBy_sorted key l
  have hxs : x ∈ sortDescBy key l := (sortDescBy_perm key l).mem_iff.mpr hx
  rw [show sortDescBy key l
      = (sortDescBy key l).take n ++ (sortDescBy key l).drop n from
    (List.take_append_drop n _).symm] at hs hxs
  have hxdrop : x ∈ (sortDescBy key l).drop n := by
    rcases List.mem_append.mp hxs with h | h
    · exact absurd h hnx
    · exact h
  exact (List.pairwise_append.mp hs).2.2 y hy x hxdrop

/-- C3: the hybrid engine returns at most 10 recommendations in
descending final-score order, drawn from the merged union of the three
sub-engines' truncated outputs; each returned score is
0.4·collaborative + 0.4·content + 0.2·popularity with an absent product
id contributing 0; nothing left unreturned from the merged pool scores
above anything returned; and a product appearing in both the
collaborative and the content lists carries the two reasons joined by
" and ".  Candidates are assumed to carry pairwise distinct product ids
(the merge is keyed by product id). -/
theorem hybrid_strategy_spec (c : CustomerData) (prods : List Candidate)
    (hnd : (prods.map Candidate.product_id).Nodup) :
    (_hybrid_strategy c prods).length ≤ 10
    ∧ (_hybrid_strategy c prods).Pairwise (fun a b => b.score ≤ a.score)
    ∧ (∀ r ∈ _hybrid_strategy c prods,
        r.score
          = 2/5 * scoreOf (_collaborative_filtering_strategy c prods) r.product_id
            + 2/5 * scoreOf (_content_based_strategy c prods) r.product_id
            + 1/5 * scoreOf (_popularity_based_strategy c prods) r.product_id)
    ∧ (∀ r ∈ _hybrid_strategy c prods,
        r.product_id ∈ recIds (_collaborative_filtering_strategy c prods)
        ∨ r.product_id ∈ recIds (_content_based_strategy c prods)
        ∨ r.product_id ∈ recIds (_popularity_based_strategy c prods))
    ∧ (∀ r ∈ _hybrid_strategy c prods, ∀ cr ctr : String,
        reasonOf (_collaborative_filtering_strategy c prods) r.product_id = some cr →
        reasonOf (_content_based_strategy c prods) r.product_id = some ctr →
        r.reason = cr ++ " and " ++ ctr)
    ∧ (∀ r' ∈ hybrid_merged c prods, r' ∉ _hybrid_strategy c prods →
        ∀ r ∈ _hybrid_strategy c prods, r'.score ≤ r.score) := by
  refine ⟨?_, ?_, ?_, ?_, ?_, ?_⟩
  · exact List.length_take_le 10 _
  · exact pairwise_take_sortDescBy Rec.score 10 _
  · intro r hr
    have hrm : r ∈ hybrid_merged c prods := mem_of_mem_take_sortDescBy hr
    rw [← scoreOf_eq_of_mem (nodup_recIds_hybrid_merged c prods) hrm]
    exact hybrid_merged_scoreOf c hnd r.product_id
  · intro r hr
    have hrm : r ∈ hybrid_merged c prods := mem_of_mem_take_sortDescBy hr
    have hid := mem_recIds_of_mem hrm
    unfold hybrid_merged at hid
    rcases mem_recIds_foldl hid with h1 | h1
    · rcases mem_recIds_foldl h1 with h2 | h2
      · rcases mem_recIds_foldl h2 with h3 | h3
        · simp [recIds] at h3
        · exact Or.inl h3
      · exact Or.inr (Or.inl h2)
    · exact Or.inr (Or.inr h1)
  · intro r hr cr ctr hcr hct
    have hrm : r ∈ hybrid_merged c prods := mem_of_mem_take_sortDescBy hr
    have h1 := reasonOf_eq_of_mem (nodup_recIds_hybrid_merged c prods) hrm
    have h2 := hybrid_merged_reasonOf c hnd hcr hct
    rw [h1] at h2
    exact Option.some.injEq _ _ ▸ h2
  · intro r' hmem hnot r hr
    exact take_sortDescBy_dominates Rec.score 10 _ hmem hnot hr

/-- Witness for C3 on two concrete candidates with distinct product
ids. -/
theorem hybrid_strategy_spec_witness :
    (([pRated1, pRated2] : List Candidate).map Candidate.product_id).Nodup
    ∧ (∀ r ∈ _hybrid_strategy cBooks [pRated1, pRated2],
        r.score
          = 2/5 * scoreOf
              (_collaborative_filtering_strategy cBooks [pRated1, pRated2]) r.product_id
            + 2/5 * scoreOf
              (_content_based_strategy cBooks [pRated1, pRated2]) r.product_id
            + 1/5 * scoreOf
              (_popularity_based_strategy cBooks [pRated1, pRated2]) r.product_id) :=
  ⟨by decide, (hybrid_strategy_spec cBooks [pRated1, pRated2] (by decide)).2.2.1⟩

lemma content_hot_eval :
    (_content_based_strategy cBooks [pHotBooks]).map Rec.score = [23/20] := by
  rw [content_eq]
  norm_num [cBooks, pHotBooks, content_rec, content_score, sortDescBy]

/-- C1 counterexample: the content-based engine applies no clamp at
output — a candidate with relevance score 0.9 whose category sits in
both histories comes back with score 1.15 > 1. -/
theorem score_clamp_counterexample :
    (_content_based_strategy cBooks [pHotBooks]).map Rec.score = [23/20]
    ∧ ¬ ((23 : ℚ)/20 ≤ 1) :=
  ⟨content_hot_eval, by norm_num⟩

lemma scoreOf_bounds {l : List Rec} {B : ℚ} (hB : 0 ≤ B)
    (h : ∀ r ∈ l, 0 ≤ r.score ∧ r.score ≤ B) (pid : String) :
    0 ≤ scoreOf l pid ∧ scoreOf l pid ≤ B := by
  induction l with
  | nil => exact ⟨le_refl 0, hB⟩
  | cons a l ih =>
    by_cases ha : a.product_id = pid
    · simpa [scoreOf, ha] using h a (List.mem_cons_self a l)
    · simpa [scoreOf, ha] using ih (fun r hr => h r (List.mem_cons_of_mem a hr))

/-- C1 amended: with candidates whose relevance scores lie in [0,1] and
whose ratings lie in [0,5] (and pairwise distinct product ids),
collaborative and popularity scores lie in [0,1], but content-based
output is not clamped and only lies in [0, 1.25], and hybrid output is
not clamped and only lies in [0, 1.1]. -/
theorem strategy_score_bounds (c : CustomerData) (prods : List Candidate)
    (hrel : ∀ p ∈ prods, 0 ≤ p.relevance_score ∧ p.relevance_score ≤ 1)
    (hrat : ∀ p ∈ prods, 0 ≤ p.product_rating ∧ p.product_rating ≤ 5)
    (hnd : (prods.map Candidate.product_id).Nodup) :
    (∀ r ∈ _collaborative_filtering_strategy c prods, 0 ≤ r.score ∧ r.score ≤ 1)
    ∧ (∀ r ∈ _popularity_based_strategy c prods, 0 ≤ r.score ∧ r.score ≤ 1)
    ∧ (∀ r ∈ _content_based_strategy c prods, 0 ≤ r.score ∧ r.score ≤ 5/4)
    ∧ (∀ r ∈ _hybrid_strategy c prods, 0 ≤ r.score ∧ r.score ≤ 11/10) := by
  have hcollab :
      ∀ r ∈ _collaborative_filtering_strategy c prods, 0 ≤ r.score ∧ r.score ≤ 1 := by
    intro r hr
    rw [collab_eq] at hr
    obtain ⟨p, hp, rfl⟩ := List.mem_map.mp hr
    exact hrel p (mem_of_mem_take_sortDescBy hp)
  have hpop :
      ∀ r ∈ _popularity_based_strategy c prods, 0 ≤ r.score ∧ r.score ≤ 1 := by
    intro r hr
    rw [pop_eq] at hr
    obtain ⟨p, hp, rfl⟩ := List.mem_map.mp hr
    obtain ⟨h0, h5⟩ := hrat p (mem_of_mem_take_sortDescBy hp)
    constructor
    · show (0:ℚ) ≤ p.product_rating / 5
      exact div_nonneg h0 (by norm_num)
    · show p.product_rating / 5 ≤ 1
      rw [div_le_one (by norm_num)]
      linarith
  have hcontent :
      ∀ r ∈ _content_based_strategy c prods, 0 ≤ r.score ∧ r.score ≤ 5/4 := by
    intro r hr
    rw [content_eq] at hr
    obtain ⟨p, hp, rfl⟩ :=
      List.mem_map.mp (mem_of_mem_take_sortDescBy hr)
    obtain ⟨h0, h1⟩ := hrel p hp
    show 0 ≤ content_score c p ∧ content_score c p ≤ 5/4
    rw [content_score_eq]
    constructor <;> split_ifs <;> linarith
  refine ⟨hcollab, hpop, hcontent, ?_⟩
  intro r hr
  have hrm : r ∈ hybrid_merged c prods := mem_of_mem_take_sortDescBy hr
  rw [← scoreOf_eq_of_mem (nodup_recIds_hybrid_merged c prods) hrm,
    hybrid_merged_scoreOf c hnd]
  obtain ⟨hc0, hc1⟩ := scoreOf_bounds (by norm_num) hcollab r.product_id
  obtain ⟨hp0, hp1⟩ := scoreOf_bounds (by norm_num) hpop r.product_id
  obtain ⟨ht0, ht1⟩ := scoreOf_bounds (by norm_num) hcontent r.product_id
  constructor <;> linarith

/-- Witness for the amended C1 on two concrete candidates. -/
theorem strategy_score_bounds_witness :
    (∀ p ∈ ([pRated1, pRated2] : List Candidate),
      0 ≤ p.relevance_score ∧ p.relevance_score ≤ 1)
    ∧ (∀ r ∈ _hybrid_strategy cBooks [pRated1, pRated2],
        0 ≤ r.score ∧ r.score ≤ 11/10) := by
  have h1 : ∀ p ∈ ([pRated1, pRated2] : List Candidate),
      0 ≤ p.relevance_score ∧ p.relevance_score ≤ 1 := by
    intro p hp
    simp only [List.mem_cons, List.not_mem_nil, or_false] at hp
    rcases hp with rfl | rfl <;> norm_num [pRated1, pRated2]
  have h2 : ∀ p ∈ ([pRated1, pRated2] : List Candidate),
      0 ≤ p.product_rating ∧ p.product_rating ≤ 5 := by
    intro p hp
    simp only [List.mem_cons, List.not_mem_nil, or_false] at hp
    rcases hp with rfl | rfl <;> norm_num [pRated1, pRated2]
  exact ⟨h1,
    (strategy_score_bounds cBooks [pRated1, pRated2] h1 h2 (by decide)).2.2.2⟩

lemma recall_store (m : AgentMem) (k v : String) :
    recall_memory (store_memory m k v) k = (some v, store_memory m k v) := by
  simp [recall_memory, store_memory]

lemma recall_after_recall (m : AgentMem) (k : String) :
    recall_memory (recall_memory m k).2 k
      = ((recall_memory m k).1, (recall_memory m k).2) := by
  unfold recall_memory
  cases hc : m.cache k with
  | some v => simp [hc]
  | none =>
    cases hd : (get_agent_memory m k).head? with
    | some row => simp [hc, hd]
    | none => simp [hc, hd]

lemma fresh_strategy_ne_empty (c : CustomerData) : fresh_strategy c ≠ "" := by
  unfold fresh_strategy
  split_ifs <;> decide

lemma fresh_strategy_mem (c : CustomerData) : fresh_strategy c ∈ strategies_list := by
  unfold fresh_strategy strategies_list
  split_ifs <;> decide

lemma mem_strategies_ne_empty {s : String} (h : s ∈ strategies_list) : s ≠ "" := by
  simp only [strategies_list, List.mem_cons, List.not_mem_nil, or_false] at h
  rcases h with rfl | rfl | rfl | rfl <;> decide

/-- Unfolding of the selector when the recall hits a stored value. -/
lemma select_eq_some {m : AgentMem} {c : CustomerData} {s : String} {m1 : AgentMem}
    (h : recall_memory m (strategyKey c.customer_id) = (some s, m1)) :
    _select_recommendation_strategy m c
      = if s = "" then
          (fresh_strategy c,
            store_memory m1 (strategyKey c.customer_id) (fresh_strategy c))
        else (s, m1) := by
  unfold _select_recommendation_strategy
  dsimp only
  rw [h]

/-- Unfolding of the selector when no stored value exists. -/
lemma select_eq_none {m : AgentMem} {c : CustomerData} {m1 : AgentMem}
    (h : recall_memory m (strategyKey c.customer_id) = (none, m1)) :
    _select_recommendation_strategy m c
      = (fresh_strategy c,
          store_memory m1 (strategyKey c.customer_id) (fresh_strategy c)) := by
  unfold _select_recommendation_strategy
  dsimp only
  rw [h]

/-- Unfolding of the learner on negative feedback with a truthy stored
strategy. -/
lemma learn_eq_rotate {m : AgentMem} {cid : String} {s : String} {m2 : AgentMem}
    (pid : String) (f : Int) (hf : f < 0)
    (h : recall_memory m (strategyKey cid) = (some s, m2)) (hne : s ≠ "") :
    _learn_from_feedback m cid pid f
      = ({ status := "learned_from_feedback"
           action_taken := "adjusted_strategy"
           previous_strategy := some s
           new_strategy := some (next_strategy s)
           current_strategy := none },
         store_memory m2 (strategyKey cid) (next_strategy s)) := by
  unfold _learn_from_feedback
  dsimp only
  rw [h]
  dsimp only
  rw [if_pos ⟨hf, by simp [truthy_str, hne]⟩]
  rfl

/-- Unfolding of the learner when no rotation happens. -/
lemma learn_eq_keep {m : AgentMem} {cid : String} {o : Option String}
    {m2 : AgentMem} (pid : String) (f : Int)
    (h : recall_memory m (strategyKey cid) = (o, m2))
    (hcond : ¬ (f < 0 ∧ truthy_str o = true)) :
    _learn_from_feedback m cid pid f
      = ({ status := "feedback_recorded"
           action_taken := "maintained_strategy"
           previous_strategy := none
           new_strategy := none
           current_strategy := o }, m2) := by
  unfold _learn_from_feedback
  dsimp only
  rw [h]
  dsimp only
  rw [if_neg hcond]

/-- C4: negative feedback with a stored preference overwrites it with
the next strategy in the fixed cycle (one step exactly, hybrid wrapping
to collaborative_filtering); non-negative feedback, or a missing
preference, leaves the stored preference as it was. -/
theorem feedback_rotation_spec (m : AgentMem) (cid pid : String) :
    (∀ s m2, recall_memory m (strategyKey cid) = (some s, m2) →
      s ∈ strategies_list →
      ((recall_memory ((_learn_from_feedback m cid pid (-1)).2)
          (strategyKey cid)).1 = some (next_strategy s)
        ∧ (_learn_from_feedback m cid pid (-1)).1.action_taken
            = "adjusted_strategy"))
    ∧ (∀ f : Int, 0 ≤ f →
        (recall_memory ((_learn_from_feedback m cid pid f).2)
            (strategyKey cid)).1
          = (recall_memory m (strategyKey cid)).1)
    ∧ ((recall_memory m (strategyKey cid)).1 = none → ∀ f : Int,
        (recall_memory ((_learn_from_feedback m cid pid f).2)
            (strategyKey cid)).1 = none)
    ∧ next_strategy "hybrid" = "collaborative_filtering"
    ∧ next_strategy "collaborative_filtering" = "content_based"
    ∧ next_strategy "content_based" = "popularity_based"
    ∧ next_strategy "popularity_based" = "hybrid" := by
  refine ⟨?_, ?_, ?_, by decide, by decide, by decide, by decide⟩
  · intro s m2 hs hmem
    have hne : s ≠ "" := mem_strategies_ne_empty hmem
    rw [learn_eq_rotate pid (-1) (by norm_num) hs hne]
    exact ⟨by rw [recall_store], rfl⟩
  · intro f hf
    rcases hrm : recall_memory m (strategyKey cid) with ⟨o, m2⟩
    rw [learn_eq_keep pid f hrm (fun hcon => absurd hcon.1 (not_lt.mpr hf))]
    have h2 := congrArg Prod.fst (recall_after_recall m (strategyKey cid))
    rw [hrm] at h2
    exact h2
  · intro hnone f
    rcases hrm : recall_memory m (strategyKey cid) with ⟨o, m2⟩
    have ho : o = none := by rw [hrm] at hnone; exact hnone
    subst ho
    rw [learn_eq_keep pid f hrm (by simp [truthy_str])]
    have h2 := congrArg Prod.fst (recall_after_recall m (strategyKey cid))
    rw [hrm] at h2
    exact h2

/-- Witness for C4: stored preference "hybrid" plus feedback −1 leaves
"collaborative_filtering" stored (cycle wrap). -/
theorem feedback_rotation_spec_witness :
    recall_memory memHybrid (strategyKey "C42")
      = (some "hybrid", memHybrid)
    ∧ (recall_memory ((_learn_from_feedback memHybrid "C42" "P1" (-1)).2)
        (strategyKey "C42")).1 = some "collaborative_filtering" := by
  have hrm : recall_memory memHybrid (strategyKey "C42")
      = (some "hybrid", memHybrid) := by
    unfold memHybrid
    rw [recall_store]
  have h := ((feedback_rotation_spec memHybrid "C42" "P1").1 "hybrid" memHybrid
    hrm (by decide)).1
  refine ⟨hrm, ?_⟩
  rw [h]
  decide

/-- C5: the strategy selector returns a truthy stored preference
unchanged; with no stored preference it returns the segment default —
popularity_based for "New Visitor", collaborative_filtering for
"Frequent Buyer", content_based when the browsing history outnumbers the
purchase history, hybrid otherwise — and stores it (cache and durable)
before returning. -/
theorem strategy_selector_spec (m : AgentMem) (c : CustomerData) :
    (∀ s m1, recall_memory m (strategyKey c.customer_id) = (some s, m1) →
        s ≠ "" → _select_recommendation_strategy m c = (s, m1))
    ∧ (∀ m1, recall_memory m (strategyKey c.customer_id) = (none, m1) →
        ((_select_recommendation_strategy m c).1 = fresh_strategy c
          ∧ (recall_memory ((_select_recommendation_strategy m c).2)
              (strategyKey c.customer_id)).1 = some (fresh_strategy c)))
    ∧ fresh_strategy c
        = (if c.customer_segment = "New Visitor" then "popularity_based"
          else if c.customer_segment = "Frequent Buyer" then
            "collaborative_filtering"
          else if c.browsing_history.length > c.purchase_history.length
          then "content_based"
          else "hybrid") := by
  refine ⟨?_, ?_, rfl⟩
  · intro s m1 h hne
    rw [select_eq_some h, if_neg hne]
  · intro m1 h
    rw [select_eq_none h]
    exact ⟨rfl, by rw [recall_store]⟩

/-- Witness for C5: a New Visitor with no stored preference gets
popularity_based, and the choice is stored. -/
theorem strategy_selector_spec_witness :
    recall_memory emptyMem (strategyKey cNew.customer_id)
      = (none, emptyMem)
    ∧ (_select_recommendation_strategy emptyMem cNew).1 = fresh_strategy cNew
    ∧ (recall_memory ((_select_recommendation_strategy emptyMem cNew).2)
        (strategyKey cNew.customer_id)).1 = some (fresh_strategy cNew)
    ∧ fresh_strategy cNew = "popularity_based" := by
  have hrm : recall_memory emptyMem (strategyKey cNew.customer_id)
      = (none, emptyMem) := rfl
  have h := (strategy_selector_spec emptyMem cNew).2.1 emptyMem hrm
  exact ⟨hrm, h.1, h.2, by decide⟩

/-- C6: strategy selection is idempotent per customer — a second call
with no intervening feedback returns the strategy of the first. -/
theorem strategy_selector_idempotent (m : AgentMem) (c : CustomerData) :
    (_select_recommendation_strategy
        ((_select_recommendation_strategy m c).2) c).1
      = (_select_recommendation_strategy m c).1 := by
  rcases hrm : recall_memory m (strategyKey c.customer_id) with ⟨o, m1⟩
  cases o with
  | none =>
    rw [select_eq_none hrm, select_eq_some (recall_store m1 _ _),
      if_neg (fresh_strategy_ne_empty c)]
  | some s =>
    by_cases hs : s = ""
    · subst hs
      rw [select_eq_some hrm, if_pos rfl, select_eq_some (recall_store m1 _ _),
        if_neg (fresh_strategy_ne_empty c)]
    · have h2 : recall_memory m1 (strategyKey c.customer_id) = (some s, m1) := by
        have h3 := recall_after_recall m (strategyKey c.customer_id)
        rw [hrm] at h3
        exact h3
      rw [select_eq_some hrm, if_neg hs, select_eq_some h2, if_neg hs]

/-- C10: both feedback entry points treat the feedback value 0 as
missing data — they return the error "Missing required feedback data"
and leave the agent memory (hence the stored strategy preference) and
the recommendation rows untouched. -/
theorem feedback_zero_rejected (m : AgentMem) (st : CoordState)
    (cid pid : Option String) :
    process_learn_from_feedback m cid pid (some 0)
      = (ProcessResult.err "Missing required feedback data", m)
    ∧ handle_feedback st cid pid (some 0)
      = (ProcessResult.err "Missing required feedback data", st) := by
  constructor <;>
    simp [process_learn_from_feedback, handle_feedback, truthy_int]

/-- Witness for C8 at the §8 scenario input: two candidates, so the
engine returns both, rating-ordered. -/
theorem popularity_based_spec_witness :
    ([pRated1, pRated2] : List Candidate).length ≤ 10
    ∧ List.Perm (_popularity_based_strategy cBooks [pRated1, pRated2])
        ([pRated1, pRated2].map pop_rec) :=
  ⟨by norm_num,
    (popularity_based_spec cBooks [pRated1, pRated2]).2.2.2.2.1 (by norm_num)⟩
